import Mathlib

/-!
Verification of the event-wait and multi-party-synchronization engine of
`autopts/ptsprojects/stack.py` (the auto-pts Bluetooth PTS automation
framework).  Python functions and methods of the source file are shallowly
embedded as Lean functions; threads' blocking waits are modelled either by
per-poll observation sequences (for the polling loops) or by an explicit
small-step transition system (for the `Synch` turn-taking protocol).
Python exceptions are modelled with `Except`.
-/

namespace AutoPts

/-! Section: Python list primitives

`list.remove(x)` in Python removes the first element that compares EQUAL
(`==`) to `x`; it raises `ValueError` when no element is equal.  The record
types stored in the event queues may have an equality coarser than object
identity, so the comparison is a parameter `eq`. -/

/-- Python `list.remove(x)` restricted to the found case:
removes the first element `e` of the list with `e == x`.
When no element compares equal the list is returned unchanged; the sole
caller that can hit that case (`Synch.wait_for_end`) wraps the call in
`try: ... except: pass`, so the unchanged list is the faithful outcome
there. -/
def py_list_remove (eq : α → α → Bool) : List α → α → List α
  | [], _ => []
  | x :: xs, v => if eq x v then xs else x :: py_list_remove eq xs v

/-! Section: `wait_event_with_condition` (stack.py lines 106-133)

```python
def wait_event_with_condition(event_queue, condition_cb, timeout, remove):
    flag = Event(); flag.set()
    t = Timer(timeout, timeout_cb, [flag]); t.start()
    while flag.is_set():
        raise_on_global_end()
        for ev in event_queue:
            if isinstance(ev, tuple):
                result = condition_cb(*ev)
            else:
                result = condition_cb(ev)
            if result:
                t.cancel()
                if ev and remove:
                    event_queue.remove(ev)
                return ev
            sleep(0.5)
    return None
```

The scan of one poll iteration finds the first record satisfying the
predicate (`condition_cb(*ev)` versus `condition_cb(ev)` is only a calling
convention for tuple records and is absorbed into `cond`).  On a match the
timer is cancelled and, when `remove` is requested and the record is truthy
(`if ev and remove`), `event_queue.remove(ev)` deletes the first record
comparing EQUAL to the matched one.  Python truthiness of a record is the
parameter `truthy`. -/

/-- One scan of the queue, as executed by the `for` loop body:
the first record satisfying `cond` is returned together with the queue
after the optional removal. -/
def wait_event_body (queue : List α) (cond : α → Bool) (truthy : α → Bool)
    (eq : α → α → Bool) (remove : Bool) : Option (α × List α) :=
  match queue.find? cond with
  | none => none
  | some ev =>
      some (ev, if truthy ev && remove then py_list_remove eq queue ev else queue)

/-- The polling loop of `wait_event_with_condition`.  `snaps i` is the
content of `event_queue` observed by poll number `i` (the queue is written
concurrently by the transport collaborator), `cancel i` is the value of the
global-end flag read by `raise_on_global_end()` at poll `i` (a raised flag
makes `raise_on_global_end` raise, modelled by `Except.error`), and `fuel`
is the number of polls the timeout window admits.  The result carries the
matched record (or `none` on timeout) and the queue after the call. -/
def wait_event_with_condition (cancel : Nat → Bool) (snaps : Nat → List α)
    (cond : α → Bool) (truthy : α → Bool) (eq : α → α → Bool) (remove : Bool) :
    Nat → Nat → Except Unit (Option α × List α)
  | 0, i => Except.ok (none, snaps i)
  | fuel + 1, i =>
      if cancel i then Except.error ()
      else
        match wait_event_body (snaps i) cond truthy eq remove with
        | some (ev, q) => Except.ok (some ev, q)
        | none => wait_event_with_condition cancel snaps cond truthy eq remove fuel (i + 1)

/-- `wait_for_event_iut` (stack.py lines 136-155) is the same polling loop
with the predicate "the record is truthy" and no tuple unpacking. -/
def wait_for_event_iut (cancel : Nat → Bool) (snaps : Nat → List α)
    (truthy : α → Bool) (eq : α → α → Bool) (remove : Bool)
    (fuel i : Nat) : Except Unit (Option α × List α) :=
  wait_event_with_condition cancel snaps truthy truthy eq remove fuel i

/-- The event log grows by appends only: a later snapshot extends an
earlier one at the tail. -/
def logGrows (a b : List α) : Prop := ∃ t, b = a ++ t

/-! Section: Mesh polling waits (stack.py lines 629-648 and 787-802)

`Mesh.wait_for_model_added_op`:

```python
def wait_for_model_added_op(self, timeout, op):
    if self.model_recv_ev_data.data is not None and \
           self.model_recv_ev_data.data[2][0:4] == op:
        self.model_recv_ev_data.data = (0, 0, bytes())
        return True
    flag = Event(); flag.set()
    t = Timer(timeout, timeout_cb, [flag]); t.start()
    while flag.is_set():
        if self.model_recv_ev_data.data is not None and \
                self.model_recv_ev_data.data[2][0:4] == op:
            t.cancel()
            self.model_recv_ev_data.data = (0, 0, bytes())
            return True
    return False
```

Unlike every sibling wait loop in the file (for example
`wait_for_node_added_uuid`, lines 610-627), the loop body contains NO call
to `raise_on_global_end()`: the global cancellation flag, although in
scope process-wide, is never consulted.  The embedding therefore takes the
per-poll cancellation observations `cancel` as an argument and — exactly
like the source — never reads them.  `obs i` is the value of
`self.model_recv_ev_data.data` read at poll `i` (poll 0 is the pre-check
before the timer is armed); the reset of the field to `(0, 0, bytes())` on
success is a state effect irrelevant to the claims and elided. -/

/-- The match condition of `wait_for_model_added_op`:
`data is not None and data[2][0:4] == op`. -/
def modelOpMatch (d : Option (Nat × Nat × List Nat)) (op : List Nat) : Bool :=
  match d with
  | none => false
  | some t => t.2.2.take 4 == op

/-- `Mesh.wait_for_model_added_op`, by per-poll observations.  `cancel` is
accepted (it is global state visible to the loop) but never consulted,
mirroring the missing `raise_on_global_end()` call in the source. -/
def wait_for_model_added_op (op : List Nat) (obs : Nat → Option (Nat × Nat × List Nat))
    (cancel : Nat → Bool) : Nat → Nat → Except Unit Bool
  | 0, _ => Except.ok false
  | fuel + 1, i =>
      if modelOpMatch (obs i) op then Except.ok true
      else wait_for_model_added_op op obs cancel fuel (i + 1)

/-- `Mesh.wait_for_blob_target_lost` (lines 787-802): polls the boolean
`self.blob_lost_target`; its loop likewise never calls
`raise_on_global_end()`, so `cancel` is never consulted. -/
def wait_for_blob_target_lost (obs : Nat → Bool) (cancel : Nat → Bool) :
    Nat → Nat → Except Unit Bool
  | 0, _ => Except.ok false
  | fuel + 1, i =>
      if obs i then Except.ok true
      else wait_for_blob_target_lost obs cancel fuel (i + 1)

/-- For contrast, `Mesh.wait_for_node_added_uuid` (lines 610-627), whose
loop body begins with `raise_on_global_end()`: cancellation observed at a
poll aborts the wait with an exception before the condition is evaluated. -/
def wait_for_node_added_uuid (uuid : Nat) (obs : Nat → List Nat) (cancel : Nat → Bool) :
    Nat → Nat → Except Unit Bool
  | 0, _ => Except.ok false
  | fuel + 1, i =>
      if cancel i then Except.error ()
      else if (obs i).contains uuid then Except.ok true
      else wait_for_node_added_uuid uuid obs cancel fuel (i + 1)

/-! Section: `is_procedure_done` and `GattCl.is_notification_rxed`
(stack.py lines 1855-1862 and 1951-1954)

```python
def is_procedure_done(list, cnt):
    if cnt is None:
        return False
    if cnt <= 0:
        return True
    return len(list) == cnt
```

```python
def is_notification_rxed(self, expected_count):
    if expected_count > 0:
        return len(self.notifications) == expected_count
    return len(self.notifications) > 0
```
-/

/-- `is_procedure_done(list, cnt)`; `cnt` may be Python `None`. -/
def is_procedure_done (l : List α) (cnt : Option Int) : Bool :=
  match cnt with
  | none => false
  | some c => if c ≤ 0 then true else (l.length : Int) == c

/-- `GattCl.is_notification_rxed(expected_count)` over the
`self.notifications` list. -/
def is_notification_rxed (notifications : List α) (expected_count : Int) : Bool :=
  if expected_count > 0 then (notifications.length : Int) == expected_count
  else decide (0 < notifications.length)

/-! Section: `CORE.cleanup` (stack.py lines 1234-1240)

```python
def cleanup(self):
    for key in self.event_queues:
        if key == defs.CORE_EV_IUT_READY:
            # To pass IUT ready event between test cases
            continue
        self.event_queues[key].clear()
```

The dictionary of event queues is modelled as an association list of
`(key, queue)` pairs; `iutReady` stands for the constant
`defs.CORE_EV_IUT_READY`. -/

/-- `CORE.cleanup`: clears every queue whose key is not the carry-over
IUT-ready category. -/
def CORE.cleanup (iutReady : Nat) (queues : List (Nat × List α)) : List (Nat × List α) :=
  queues.map fun kq => if kq.1 = iutReady then kq else (kq.1, [])

/-! Section: The `Synch` engine: data model (stack.py lines 1614-1760)

```python
class SynchPoint:
    def __init__(self, test_case, wid, delay=None):
        self.test_case = test_case
        self.wid = wid
        self.delay = delay
        self.done = None
    def set_done(self):
        self.done.set(True)
    def clear(self):
        self.done.clear()
    def wait(self):
        self.done.wait()
```

`self.done` is a `ResultWithFlag` from `autopts.utils`. -/

/-- Modelled from the spec: `ResultWithFlag` (`autopts/utils.py`, not under
`src/`) is the completion signal of a `SynchPoint` — per spec section 3 a
"boolean-valued, settable, waitable, and resettable" one-shot gate.  Only
its set/unset state is relevant here; `wait` blocks until `isSet` and
a freshly constructed signal is unset. -/
structure Signal where
  isSet : Bool
deriving DecidableEq, Repr

/-- A freshly constructed `ResultWithFlag()`: unset. -/
def Signal.fresh : Signal := ⟨false⟩

/-- `SynchPoint`.  In `__init__` the signal is Python `None`; every point of
a registered element has been given a signal by `Synch.add_synch_element`
(line 1697) before any synchronization call can reach it, so `done` is
modelled by the signal itself and the transient `None` state is elided. -/
structure SynchPoint where
  test_case : Nat
  wid : Nat
  delay : Option Nat
  done : Signal
deriving DecidableEq, Repr

/-- `SynchPoint.set_done`: `self.done.set(True)`. -/
def SynchPoint.set_done (p : SynchPoint) : SynchPoint :=
  { p with done := { isSet := true } }

/-- `SynchElem` state: the registered points in order and the broken flags
of the two `threading.Barrier(count, self.clear_flags)` barriers
(`abort()` puts a barrier permanently into the broken state). -/
structure SynchElem where
  sync_points : List SynchPoint
  start_broken : Bool
  end_broken : Bool
deriving DecidableEq, Repr

/-- `SynchElem.cancel_synch` (lines 1677-1682): abort the end barrier, then
the start barrier, then force-set every point's completion signal. -/
def SynchElem.cancel_synch (e : SynchElem) : SynchElem :=
  { e with
    end_broken := true
    start_broken := true
    sync_points := e.sync_points.map SynchPoint.set_done }

/-- `Synch.cancel_synch` (lines 1757-1760): cancel every element of the
registry, then replace the table with the empty list.  The first component
is the final state of the (shared, mutated) former elements, the second the
new registry. -/
def Synch.cancel_synch (table : List SynchElem) : List SynchElem × List SynchElem :=
  (table.map SynchElem.cancel_synch, [])

/-- `Synch.add_synch_element` (lines 1693-1699):

```python
def add_synch_element(self, elem):
    for sync_point in elem:
        # If a test case has to be repeated, its SyncPoints will be reused.
        # Reinit done-flags to renew potentially broken locks.
        sync_point.done = ResultWithFlag()
    self._synch_table.append(SynchElem(elem))
```

Every point of the (possibly reused) list gets a fresh signal, then a new
`SynchElem` wrapping the list — with freshly constructed (unbroken)
barriers — is appended to the registry. -/
def Synch.add_synch_element (table : List SynchElem) (elem : List SynchPoint) :
    List SynchElem :=
  table ++ [⟨elem.map fun p => { p with done := Signal.fresh }, false, false⟩]

/-! Section: `wait_for_start` / `wait_for_end` control flow

`threading.Barrier.wait()` returns normally when all participants arrive
and the barrier is not broken; if the barrier is already broken when called
or is aborted while the caller blocks in it, it raises
`BrokenBarrierError` (CPython documented semantics).  The interaction of
one call with the barrier is therefore summarized by
`waitOutcome : Except Unit Unit` — `Except.error` is a raised
`BrokenBarrierError` — together with `brokenAfter`, the value of the
`.broken` attribute read after a normal return (an abort can still land
between the release and that read). -/

/-- `SynchElem.wait_for_start` (lines 1650-1656):

```python
def wait_for_start(self):
    self._start_barrier.wait()
    if self._start_barrier.broken:
        return False
    return True
```

A `BrokenBarrierError` raised by `wait()` propagates; only on a normal
return is the `.broken` flag consulted. -/
def SynchElem.wait_for_start (waitOutcome : Except Unit Unit) (brokenAfter : Bool) :
    Except Unit Bool := do
  _ ← waitOutcome
  if brokenAfter then return false else return true

/-- `SynchElem.wait_for_end` (lines 1658-1662): identical shape on the end
barrier. -/
def SynchElem.wait_for_end (waitOutcome : Except Unit Unit) (brokenAfter : Bool) :
    Except Unit Bool := do
  _ ← waitOutcome
  if brokenAfter then return false else return true

/-- `Synch.wait_for_start` (lines 1701-1728), for a call whose
`(wid, tc_name)` lookup is summarized by `found`, the entry-barrier
interaction by `entryWait`/`entryBrokenAfter`, and the result of
`SynchElem.wait_for_your_turn` by `turnResult` (the turn wait blocks on
completion signals, not on the barriers, and returns a plain boolean).
The returned element is modelled by `some ()`:

```python
def wait_for_start(self, wid, tc_name):
    ... scan self._synch_table ...
    if not synch_point:
        return None
    if not elem.wait_for_start():
        return None
    if not elem.wait_for_your_turn(synch_point):
        return None
    return elem
```
-/
def Synch.wait_for_start (found : Bool) (entryWait : Except Unit Unit)
    (entryBrokenAfter : Bool) (turnResult : Bool) : Except Unit (Option Unit) := do
  if !found then return none
  let started ← SynchElem.wait_for_start entryWait entryBrokenAfter
  if !started then return none
  if !turnResult then return none
  return some ()

/-- The externally visible actions of `Synch.wait_for_end`, in program
order. -/
inductive EndAction where
  | sleepDelay (d : Nat)
  | setDone
  | endBarrierWait
  | removeElem
deriving DecidableEq, Repr

/-- First-occurrence removal of an element id from the registry table,
`self._synch_table.remove(synch_elem)` under `try: ... except: pass`
(`SynchElem` defines no `__eq__`, so Python equality here is object
identity, modelled by the id).  An absent id leaves the table unchanged
(the `ValueError` is swallowed). -/
def list_remove_elem (table : List Nat) (x : Nat) : List Nat :=
  match table with
  | [] => []
  | y :: ys => if y = x then ys else y :: list_remove_elem ys x

/-- `Synch.wait_for_end` (lines 1730-1755):

```python
def wait_for_end(self, synch_elem):
    synch_point = synch_elem.active_synch_point
    if synch_point.delay:
        sleep(synch_point.delay)
    synch_point.set_done()
    if not synch_elem.wait_for_end():
        return None
    try:
        self._synch_table.remove(synch_elem)
    except:
        # Already cleaned up by other thread
        pass
    return None
```

`delay` is the active point's optional delay (Python truthiness: `None`
and `0` both skip the sleep); `endWait`/`endBrokenAfter` summarize the exit
barrier as above; `table` is the registry as a list of element ids and
`elemId` this element's id.  The result records the performed actions in
order, the registry after the call, and the returned value (always
`None`). -/
def Synch.wait_for_end (delay : Option Nat) (endWait : Except Unit Unit)
    (endBrokenAfter : Bool) (table : List Nat) (elemId : Nat) :
    Except Unit (List EndAction × List Nat × Option Unit) := do
  let dtrace := match delay with
    | some d => if d != 0 then [EndAction.sleepDelay d] else []
    | none => []
  let finished ← SynchElem.wait_for_end endWait endBrokenAfter
  if !finished then
    return (dtrace ++ [EndAction.setDone, EndAction.endBarrierWait], table, none)
  return (dtrace ++ [EndAction.setDone, EndAction.endBarrierWait, EndAction.removeElem],
          list_remove_elem table elemId, none)

/-! Section: The turn-taking protocol of one `SynchElem` as a transition system

`SynchElem.wait_for_your_turn` (lines 1664-1675):

```python
def wait_for_your_turn(self, synch_point):
    for point in self.sync_points:
        if point == synch_point:
            self.active_synch_point = synch_point
            return True
        point.wait()
        if self._start_barrier.broken or self._end_barrier.broken:
            return False
    return False
```

and the completion step of `Synch.wait_for_end` (`synch_point.set_done()`,
line 1737).  Thread `i` owns registration-order point `i` (this is the
point `find_matching` hands it); `point == synch_point` is object identity,
i.e. index equality.  The per-thread control state inside
`wait_for_your_turn` is:

* `waiting k` — at the top of loop iteration `k` (about to compare point
  `k` against its own point);
* `checking k` — `point.wait()` on point `k` has returned (the completion
  signal of point `k` was observed set) and the broken-barrier check is
  about to run;
* `active` — returned `True`: this thread's point is the active point;
* `turnDone` — the thread has executed `set_done()` in `wait_for_end`;
* `aborted` — returned `False` at the broken-barrier check.

Shared state: the points' completion signals (`done`), and `broken` — the
disjunction `start_barrier.broken or end_barrier.broken` (both aborts of
`cancel_synch` precede its `set_done` loop, so the merged flag is raised
before any cancellation-set signal becomes visible).  The cancellation
steps `cancelAbort`/`cancelSetDone` embed `SynchElem.cancel_synch`;
`clearFlags` is the barrier action `self.clear_flags` run when the exit
barrier releases, which can only happen once every participant has
completed its turn.  The initial state is the moment the entry barrier
releases all `n` participant threads (its `clear_flags` action has just
reset every signal). -/

/-- Control state of one participant thread of a `SynchElem`. -/
inductive TPhase where
  | waiting (k : Nat)
  | checking (k : Nat)
  | active
  | turnDone
  | aborted
deriving DecidableEq, Repr

/-- Shared state of one `SynchElem` with `n` points and `n` participant
threads. -/
structure TurnState (n : Nat) where
  done : Fin n → Bool
  phase : Fin n → TPhase
  broken : Bool

/-- The state right after the entry barrier releases: all completion
signals cleared, every thread entering `wait_for_your_turn` at its first
loop iteration, barriers unbroken. -/
def initTurn (n : Nat) : TurnState n :=
  ⟨fun _ => false, fun _ => TPhase.waiting 0, false⟩

/-- One interleaved step of the `n` participant threads (plus the
cancellation path and the exit-barrier release action). -/
inductive TurnStep {n : Nat} : TurnState n → TurnState n → Prop
  /-- `point.wait()` on a predecessor point `k` returns: its completion
  signal is set. -/
  | waitPass (s : TurnState n) (i : Fin n) (k : Nat) (hk : k < n) :
      s.phase i = TPhase.waiting k → k ≠ i.val → s.done ⟨k, hk⟩ = true →
      TurnStep s { s with phase := Function.update s.phase i (TPhase.checking k) }
  /-- The broken-barrier check passes: continue with the next point. -/
  | checkOk (s : TurnState n) (i : Fin n) (k : Nat) :
      s.phase i = TPhase.checking k → s.broken = false →
      TurnStep s { s with phase := Function.update s.phase i (TPhase.waiting (k + 1)) }
  /-- The broken-barrier check fails: `wait_for_your_turn` returns `False`. -/
  | checkBroken (s : TurnState n) (i : Fin n) (k : Nat) :
      s.phase i = TPhase.checking k → s.broken = true →
      TurnStep s { s with phase := Function.update s.phase i TPhase.aborted }
  /-- `point == synch_point`: the thread reaches its own point, marks it
  active and `wait_for_your_turn` returns `True`. -/
  | claimTurn (s : TurnState n) (i : Fin n) :
      s.phase i = TPhase.waiting i.val →
      TurnStep s { s with phase := Function.update s.phase i TPhase.active }
  /-- `synch_point.set_done()` in `Synch.wait_for_end`: the active thread
  sets its own completion signal. -/
  | setDone (s : TurnState n) (i : Fin n) :
      s.phase i = TPhase.active →
      TurnStep s { s with
        done := Function.update s.done i true
        phase := Function.update s.phase i TPhase.turnDone }
  /-- `cancel_synch` aborts both barriers (before touching any signal). -/
  | cancelAbort (s : TurnState n) :
      TurnStep s { s with broken := true }
  /-- `cancel_synch` force-sets a point's completion signal — only ever
  after the aborts. -/
  | cancelSetDone (s : TurnState n) (j : Fin n) :
      s.broken = true →
      TurnStep s { s with done := Function.update s.done j true }
  /-- The exit barrier releases — possible only once every participant has
  completed its turn — and its `clear_flags` action resets every signal. -/
  | clearFlags (s : TurnState n) :
      (∀ j : Fin n, s.phase j = TPhase.turnDone) →
      TurnStep s { s with done := fun _ => false }

/-- States reachable from the entry-barrier release. -/
inductive TurnReach {n : Nat} : TurnState n → Prop
  | init : TurnReach (initTurn n)
  | step {s t : TurnState n} : TurnReach s → TurnStep s t → TurnReach t

/-- The inductive invariant of the turn-taking protocol. -/
def TurnInv {n : Nat} (s : TurnState n) : Prop :=
  (∀ i : Fin n, ∀ k : Nat,
      (s.phase i = TPhase.waiting k →
        k ≤ i.val ∧ ∀ j : Fin n, j.val < k → s.done j = true) ∧
      (s.phase i = TPhase.checking k →
        k < i.val ∧ ∀ j : Fin n, j.val ≤ k → s.done j = true)) ∧
  (∀ i : Fin n, s.phase i = TPhase.active →
      ∀ j : Fin n, j.val < i.val → s.done j = true) ∧
  (s.broken = false →
      ∀ j : Fin n, s.done j = true → s.phase j = TPhase.turnDone)

lemma turnInv_init (n : Nat) : TurnInv (initTurn n) := by
  refine ⟨fun i k => ⟨fun h => ?_, fun h => ?_⟩, fun i h => ?_, fun _ j h => ?_⟩
  · simp only [initTurn, TPhase.waiting.injEq] at h
    subst h
    exact ⟨Nat.zero_le _, fun j hj => absurd hj (Nat.not_lt_zero _)⟩
  · simp [initTurn] at h
  · simp [initTurn] at h
  · simp [initTurn] at h

lemma mk_done {n : Nat} (d : Fin n → Bool) (p : Fin n → TPhase) (b : Bool) :
    (TurnState.mk d p b).done = d := rfl

lemma mk_phase {n : Nat} (d : Fin n → Bool) (p : Fin n → TPhase) (b : Bool) :
    (TurnState.mk d p b).phase = p := rfl

lemma mk_broken {n : Nat} (d : Fin n → Bool) (p : Fin n → TPhase) (b : Bool) :
    (TurnState.mk d p b).broken = b := rfl

lemma turnInv_step {n : Nat} {s t : TurnState n} (hinv : TurnInv s)
    (hstep : TurnStep s t) : TurnInv t := by
  obtain ⟨h1, h2, h3⟩ := hinv
  cases hstep with
  | waitPass i k hk hw hne hd =>
      refine ⟨fun i0 k0 => ⟨fun h => ?_, fun h => ?_⟩, fun i0 h => ?_, fun hb j hdj => ?_⟩
      · simp only [mk_phase, mk_done, Function.update_apply] at h ⊢
        by_cases e : i0 = i
        · rw [if_pos e] at h; simp at h
        · rw [if_neg e] at h
          exact (h1 i0 k0).1 h
      · simp only [mk_phase, mk_done, Function.update_apply] at h ⊢
        by_cases e : i0 = i
        · rw [if_pos e] at h
          simp only [TPhase.checking.injEq] at h
          subst h
          subst e
          obtain ⟨hki, hall⟩ := (h1 i0 k).1 hw
          refine ⟨Nat.lt_of_le_of_ne hki hne, fun j hj => ?_⟩
          rcases Nat.lt_or_eq_of_le hj with hlt | heq
          · exact hall j hlt
          · have hje : j = ⟨k, hk⟩ := Fin.ext heq
            rw [hje]; exact hd
        · rw [if_neg e] at h
          exact (h1 i0 k0).2 h
      · simp only [mk_phase, mk_done, Function.update_apply] at h ⊢
        by_cases e : i0 = i
        · rw [if_pos e] at h; simp at h
        · rw [if_neg e] at h
          exact h2 i0 h
      · simp only [mk_done] at hdj
        simp only [mk_broken] at hb
        simp only [mk_phase, Function.update_apply]
        have hp := h3 hb j hdj
        by_cases e : j = i
        · rw [e] at hp; rw [hw] at hp; simp at hp
        · rw [if_neg e]; exact hp
  | checkOk i k hc hbf =>
      refine ⟨fun i0 k0 => ⟨fun h => ?_, fun h => ?_⟩, fun i0 h => ?_, fun hb j hdj => ?_⟩
      · simp only [mk_phase, mk_done, Function.update_apply] at h ⊢
        by_cases e : i0 = i
        · rw [if_pos e] at h
          simp only [TPhase.waiting.injEq] at h
          subst h
          subst e
          obtain ⟨hki, hall⟩ := (h1 i0 k).2 hc
          exact ⟨hki, fun j hj => hall j (Nat.lt_succ_iff.mp hj)⟩
        · rw [if_neg e] at h
          exact (h1 i0 k0).1 h
      · simp only [mk_phase, mk_done, Function.update_apply] at h ⊢
        by_cases e : i0 = i
        · rw [if_pos e] at h; simp at h
        · rw [if_neg e] at h
          exact (h1 i0 k0).2 h
      · simp only [mk_phase, mk_done, Function.update_apply] at h ⊢
        by_cases e : i0 = i
        · rw [if_pos e] at h; simp at h
        · rw [if_neg e] at h
          exact h2 i0 h
      · simp only [mk_done] at hdj
        simp only [mk_broken] at hb
        simp only [mk_phase, Function.update_apply]
        have hp := h3 hb j hdj
        by_cases e : j = i
        · rw [e] at hp; rw [hc] at hp; simp at hp
        · rw [if_neg e]; exact hp
  | checkBroken i k hc hbt =>
      refine ⟨fun i0 k0 => ⟨fun h => ?_, fun h => ?_⟩, fun i0 h => ?_, fun hb j hdj => ?_⟩
      · simp only [mk_phase, mk_done, Function.update_apply] at h ⊢
        by_cases e : i0 = i
        · rw [if_pos e] at h; simp at h
        · rw [if_neg e] at h
          exact (h1 i0 k0).1 h
      · simp only [mk_phase, mk_done, Function.update_apply] at h ⊢
        by_cases e : i0 = i
        · rw [if_pos e] at h; simp at h
        · rw [if_neg e] at h
          exact (h1 i0 k0).2 h
      · simp only [mk_phase, mk_done, Function.update_apply] at h ⊢
        by_cases e : i0 = i
        · rw [if_pos e] at h; simp at h
        · rw [if_neg e] at h
          exact h2 i0 h
      · simp only [mk_broken] at hb
        rw [hbt] at hb; simp at hb
  | claimTurn i hw =>
      refine ⟨fun i0 k0 => ⟨fun h => ?_, fun h => ?_⟩, fun i0 h => ?_, fun hb j hdj => ?_⟩
      · simp only [mk_phase, mk_done, Function.update_apply] at h ⊢
        by_cases e : i0 = i
        · rw [if_pos e] at h; simp at h
        · rw [if_neg e] at h
          exact (h1 i0 k0).1 h
      · simp only [mk_phase, mk_done, Function.update_apply] at h ⊢
        by_cases e : i0 = i
        · rw [if_pos e] at h; simp at h
        · rw [if_neg e] at h
          exact (h1 i0 k0).2 h
      · simp only [mk_phase, mk_done, Function.update_apply] at h ⊢
        by_cases e : i0 = i
        · subst e
          exact ((h1 i0 i0.val).1 hw).2
        · rw [if_neg e] at h
          exact h2 i0 h
      · simp only [mk_done] at hdj
        simp only [mk_broken] at hb
        simp only [mk_phase, Function.update_apply]
        have hp := h3 hb j hdj
        by_cases e : j = i
        · rw [e] at hp; rw [hw] at hp; simp at hp
        · rw [if_neg e]; exact hp
  | setDone i ha =>
      refine ⟨fun i0 k0 => ⟨fun h => ?_, fun h => ?_⟩, fun i0 h => ?_, fun hb j hdj => ?_⟩
      · simp only [mk_phase, mk_done, Function.update_apply] at h ⊢
        by_cases e : i0 = i
        · rw [if_pos e] at h; simp at h
        · rw [if_neg e] at h
          obtain ⟨hk0, hall⟩ := (h1 i0 k0).1 h
          refine ⟨hk0, fun j hj => ?_⟩
          by_cases ej : j = i
          · rw [if_pos ej]
          · rw [if_neg ej]; exact hall j hj
      · simp only [mk_phase, mk_done, Function.update_apply] at h ⊢
        by_cases e : i0 = i
        · rw [if_pos e] at h; simp at h
        · rw [if_neg e] at h
          obtain ⟨hk0, hall⟩ := (h1 i0 k0).2 h
          refine ⟨hk0, fun j hj => ?_⟩
          by_cases ej : j = i
          · rw [if_pos ej]
          · rw [if_neg ej]; exact hall j hj
      · simp only [mk_phase, mk_done, Function.update_apply] at h ⊢
        by_cases e : i0 = i
        · rw [if_pos e] at h; simp at h
        · rw [if_neg e] at h
          intro j hj
          by_cases ej : j = i
          · rw [if_pos ej]
          · rw [if_neg ej]; exact h2 i0 h j hj
      · simp only [mk_done, Function.update_apply] at hdj
        simp only [mk_broken] at hb
        simp only [mk_phase, Function.update_apply]
        by_cases e : j = i
        · rw [if_pos e]
        · rw [if_neg e] at hdj
          rw [if_neg e]
          exact h3 hb j hdj
  | cancelAbort =>
      refine ⟨h1, h2, fun hb => ?_⟩
      simp only [mk_broken] at hb
      simp at hb
  | cancelSetDone j0 hbt =>
      refine ⟨fun i0 k0 => ⟨fun h => ?_, fun h => ?_⟩, fun i0 h => ?_, fun hb j hdj => ?_⟩
      · simp only [mk_phase, mk_done, Function.update_apply] at h ⊢
        obtain ⟨hk0, hall⟩ := (h1 i0 k0).1 h
        refine ⟨hk0, fun j hj => ?_⟩
        by_cases ej : j = j0
        · rw [if_pos ej]
        · rw [if_neg ej]; exact hall j hj
      · simp only [mk_phase, mk_done, Function.update_apply] at h ⊢
        obtain ⟨hk0, hall⟩ := (h1 i0 k0).2 h
        refine ⟨hk0, fun j hj => ?_⟩
        by_cases ej : j = j0
        · rw [if_pos ej]
        · rw [if_neg ej]; exact hall j hj
      · simp only [mk_phase, mk_done, Function.update_apply] at h ⊢
        intro j hj
        by_cases ej : j = j0
        · rw [if_pos ej]
        · rw [if_neg ej]; exact h2 i0 h j hj
      · simp only [mk_broken] at hb
        rw [hbt] at hb; simp at hb
  | clearFlags hall =>
      refine ⟨fun i0 k0 => ⟨fun h => ?_, fun h => ?_⟩, fun i0 h => ?_, fun hb j hdj => ?_⟩
      · simp only [mk_phase] at h
        rw [hall i0] at h; simp at h
      · simp only [mk_phase] at h
        rw [hall i0] at h; simp at h
      · simp only [mk_phase] at h
        rw [hall i0] at h; simp at h
      · simp only [mk_done] at hdj
        simp at hdj

lemma turnReach_inv {n : Nat} {s : TurnState n} (h : TurnReach s) : TurnInv s := by
  induction h with
  | init => exact turnInv_init n
  | step _ hstep ih => exact turnInv_step ih hstep

/-- C1: Within one `SynchElem` whose points are registered in order
`p_0 .. p_{n-1}`, in every reachable state of every run of the turn-taking
protocol: if the thread owning point `p_i` holds the turn
(`wait_for_your_turn` returned `True` for `p_i`, making `p_i` the active
point), then the completion signal of every predecessor point
`p_0 .. p_{i-1}` has been observed set; moreover, as long as neither
barrier is broken, every predecessor thread has already completed its own
turn (`set_done` in `wait_for_end`), so turns are taken in exactly the
registered order. -/
theorem synch_turn_order {n : Nat} (s : TurnState n) (h : TurnReach s)
    (i : Fin n) (ha : s.phase i = TPhase.active) :
    (∀ j : Fin n, j.val < i.val → s.done j = true) ∧
    (s.broken = false → ∀ j : Fin n, j.val < i.val → s.phase j = TPhase.turnDone) := by
  obtain ⟨_, h2, h3⟩ := turnReach_inv h
  exact ⟨h2 i ha, fun hb j hj => h3 hb j (h2 i ha j hj)⟩

/-! Section: a concrete two-participant run for the C1 witness:
thread 0 claims its turn, completes it, then thread 1 passes the wait on
point 0, passes the broken check and claims its own turn. -/

def cW0 : TurnState 2 := initTurn 2

def cW1 : TurnState 2 :=
  { cW0 with phase := Function.update cW0.phase 0 TPhase.active }

def cW2 : TurnState 2 :=
  { cW1 with
    done := Function.update cW1.done 0 true
    phase := Function.update cW1.phase 0 TPhase.turnDone }

def cW3 : TurnState 2 :=
  { cW2 with phase := Function.update cW2.phase 1 (TPhase.checking 0) }

def cW4 : TurnState 2 :=
  { cW3 with phase := Function.update cW3.phase 1 (TPhase.waiting 1) }

def cW5 : TurnState 2 :=
  { cW4 with phase := Function.update cW4.phase 1 TPhase.active }

/-- Witness for `synch_turn_order`: in the concrete two-participant run
above, when thread 1 holds the turn, point 0's completion signal is set and
thread 0 has completed its turn. -/
theorem synch_turn_order_witness :
    (∀ j : Fin 2, j.val < (1 : Fin 2).val → cW5.done j = true) ∧
    (cW5.broken = false → ∀ j : Fin 2, j.val < (1 : Fin 2).val →
      cW5.phase j = TPhase.turnDone) :=
  synch_turn_order cW5
    (((((TurnReach.init.step
        (TurnStep.claimTurn cW0 0 (by decide))).step
        (TurnStep.setDone cW1 0 (by decide))).step
        (TurnStep.waitPass cW2 1 0 (by decide) (by decide) (by decide) (by decide))).step
        (TurnStep.checkOk cW3 1 0 (by decide) (by decide))).step
        (TurnStep.claimTurn cW4 1 (by decide)))
    1 (by decide)

/-! Section: theorems about the polling waits -/

lemma logGrows_trans {a b c : List α} (h1 : logGrows a b) (h2 : logGrows b c) :
    logGrows a c := by
  obtain ⟨t1, rfl⟩ := h1
  obtain ⟨t2, rfl⟩ := h2
  exact ⟨t1 ++ t2, by simp⟩

lemma logGrows_chain {snaps : Nat → List α}
    (hmono : ∀ j, logGrows (snaps j) (snaps (j + 1))) (i : Nat) :
    ∀ k, logGrows (snaps i) (snaps (i + k)) := by
  intro k
  induction k with
  | zero => exact ⟨[], by simp⟩
  | succ k ih => exact logGrows_trans ih (hmono (i + k))

lemma logGrows_find? {a b : List α} {p : α → Bool} {v : α}
    (hg : logGrows a b) (hf : a.find? p = some v) : b.find? p = some v := by
  obtain ⟨t, rfl⟩ := hg
  induction a with
  | nil => simp at hf
  | cons x xs ih =>
      by_cases hx : p x = true
      · rw [List.find?_cons_of_pos _ hx] at hf
        rw [List.cons_append, List.find?_cons_of_pos _ hx]
        exact hf
      · rw [List.find?_cons_of_neg _ hx] at hf
        rw [List.cons_append, List.find?_cons_of_neg _ hx]
        exact ih hf

/-- C5: for the condition wait `wait_event_with_condition` over an
append-only event log with the global-end flag never raised: (a) if no
record satisfying the predicate is in any snapshot within the timeout
window, the wait returns the no-match sentinel `none` — an ordinary return,
not an exception; (b) if some snapshot within the window contains a
matching record, the wait returns a record `ev`, and `ev` is the first
record of the log (in log order) satisfying the predicate. -/
theorem wait_event_first_match (cancel : Nat → Bool) (snaps : Nat → List α)
    (cond truthy : α → Bool) (eq : α → α → Bool) (remove : Bool) (fuel i : Nat)
    (hcancel : ∀ j, cancel j = false)
    (hmono : ∀ j, logGrows (snaps j) (snaps (j + 1))) :
    ((∀ k, k < fuel → (snaps (i + k)).find? cond = none) →
        wait_event_with_condition cancel snaps cond truthy eq remove fuel i =
          Except.ok (none, snaps (i + fuel)))
    ∧ (∀ k, k < fuel → ((snaps (i + k)).find? cond).isSome →
        ∃ ev q, wait_event_with_condition cancel snaps cond truthy eq remove fuel i =
            Except.ok (some ev, q) ∧ (snaps (i + k)).find? cond = some ev) := by
  induction fuel generalizing i with
  | zero =>
      refine ⟨fun _ => ?_, fun k hk => absurd hk (Nat.not_lt_zero k)⟩
      simp [wait_event_with_condition]
  | succ fuel ih =>
      constructor
      · intro hnone
        have h0 := hnone 0 (Nat.succ_pos fuel)
        simp only [Nat.add_zero] at h0
        rw [wait_event_with_condition, hcancel i, if_neg (by simp)]
        rw [wait_event_body, h0]
        have := (ih (i + 1)).1 (fun k hk => by
          have := hnone (k + 1) (Nat.succ_lt_succ hk)
          rwa [show i + (k + 1) = i + 1 + k by omega] at this)
        rw [this, show i + 1 + fuel = i + (fuel + 1) by omega]
      · intro k hk hsome
        rw [wait_event_with_condition, hcancel i, if_neg (by simp)]
        cases hfind : (snaps i).find? cond with
        | some ev =>
            refine ⟨ev, if truthy ev && remove then py_list_remove eq (snaps i) ev
                        else snaps i, ?_, ?_⟩
            · rw [wait_event_body, hfind]
            · exact logGrows_find? (logGrows_chain hmono i k) hfind
        | none =>
            rw [wait_event_body, hfind]
            cases k with
            | zero =>
                rw [Nat.add_zero] at hsome
                rw [hfind] at hsome
                simp at hsome
            | succ k2 =>
                have hk2 : k2 < fuel := Nat.lt_of_succ_lt_succ hk
                have hsome2 : ((snaps (i + 1 + k2)).find? cond).isSome := by
                  rwa [show i + 1 + k2 = i + (k2 + 1) by omega]
                obtain ⟨ev, q, hres, hf⟩ := (ih (i + 1)).2 k2 hk2 hsome2
                refine ⟨ev, q, hres, ?_⟩
                rwa [show i + 1 + k2 = i + (k2 + 1) by omega] at hf

/-- Witness for `wait_event_first_match`: two polls over a log that is
empty at the first poll and holds the record `5` at the second; the wait
returns `5`, the first matching record. -/
theorem wait_event_first_match_witness :
    ∃ ev q,
      wait_event_with_condition (fun _ => false)
          (fun j => if j = 0 then ([] : List Nat) else [5])
          (fun x => x == 5) (fun x => x != 0) (fun a b => a == b) true 2 0 =
        Except.ok (some ev, q) ∧
      ((if (0 + 1 : Nat) = 0 then ([] : List Nat) else [5]).find? (fun x => x == 5)) =
        some ev :=
  (wait_event_first_match (fun _ => false)
      (fun j => if j = 0 then ([] : List Nat) else [5])
      (fun x => x == 5) (fun x => x != 0) (fun a b => a == b) true 2 0
      (fun _ => rfl)
      (fun j => match j with
        | 0 => ⟨[5], rfl⟩
        | Nat.succ _ => ⟨[], rfl⟩)).2
    1 (by decide) (by decide)

/-- C3 counterexample: the queue holds two records carrying the same
payload (so they compare equal under the record equality) but with
distinct identities `0` and `1`; the predicate matches only record `1`.
The scan matches record `(1, 5)`, yet `event_queue.remove(ev)` deletes
record `(0, 5)` — the first EQUAL record — so the final queue is
`[(1, 5)]`, not the `[(0, 5)]` that identity-based removal of exactly the
matched record would leave. -/
theorem wait_event_remove_counterexample :
    wait_event_body [((0 : Nat), (5 : Nat)), (1, 5)]
        (fun p => p.1 == 1) (fun _ => true) (fun a b => a.2 == b.2) true =
      some ((1, 5), [(1, 5)]) ∧
    ([((1 : Nat), (5 : Nat))] : List (Nat × Nat)) ≠ [(0, 5)] := by
  exact ⟨by decide, by decide⟩

lemma py_list_remove_decomp (eq : α → α → Bool) :
    ∀ (l : List α) (v : α), (∃ x ∈ l, eq x v = true) →
    ∃ l1 r l2, l = l1 ++ r :: l2 ∧ (∀ x ∈ l1, eq x v = false) ∧ eq r v = true ∧
      py_list_remove eq l v = l1 ++ l2 := by
  intro l v hex
  induction l with
  | nil => simp at hex
  | cons y ys ih =>
      by_cases hy : eq y v = true
      · exact ⟨[], y, ys, rfl, by simp, hy, by simp [py_list_remove, hy]⟩
      · have hyf : eq y v = false := Bool.eq_false_iff.mpr hy
        obtain ⟨x, hx, hxe⟩ := hex
        have hxys : x ∈ ys := by
          rcases List.mem_cons.mp hx with rfl | h
          · exact absurd hxe hy
          · exact h
        obtain ⟨l1, r, l2, hsplit, hnone, hre, hrem⟩ := ih ⟨x, hxys, hxe⟩
        refine ⟨y :: l1, r, l2, by simp [hsplit], ?_, hre, ?_⟩
        · intro z hz
          rcases List.mem_cons.mp hz with rfl | h
          · exact hyf
          · exact hnone z h
        · simp [py_list_remove, hyf, hrem]

/-- C3 amended: when a predicate wait matches a record `ev` that is truthy
and removal is requested, the queue update removes the FIRST record of the
queue comparing equal (Python `==`) to `ev` — all other records are left in
place — which is the matched record itself exactly when no earlier record
compares equal to it; a falsy matched record is not removed at all. -/
theorem wait_event_remove_amended (queue : List α) (cond truthy : α → Bool)
    (eq : α → α → Bool) (ev : α)
    (hfind : queue.find? cond = some ev) (ht : truthy ev = true)
    (he : eq ev ev = true) :
    ∃ l1 r l2, queue = l1 ++ r :: l2 ∧ (∀ x ∈ l1, eq x ev = false) ∧
      eq r ev = true ∧
      wait_event_body queue cond truthy eq true = some (ev, l1 ++ l2) := by
  have hmem : ev ∈ queue := List.mem_of_find?_eq_some hfind
  obtain ⟨l1, r, l2, hsplit, hnone, hre, hrem⟩ :=
    py_list_remove_decomp eq queue ev ⟨ev, hmem, he⟩
  refine ⟨l1, r, l2, hsplit, hnone, hre, ?_⟩
  rw [wait_event_body, hfind]
  simp [ht, hrem]

/-- Witness for `wait_event_remove_amended` at the counterexample input:
the first equal record `(0, 5)` is deleted while the matched record
`(1, 5)` survives. -/
theorem wait_event_remove_amended_witness :
    ∃ l1 r l2,
      ([((0 : Nat), (5 : Nat)), (1, 5)] : List (Nat × Nat)) = l1 ++ r :: l2 ∧
      (∀ x ∈ l1, (x.2 == (5 : Nat)) = false) ∧ (r.2 == (5 : Nat)) = true ∧
      wait_event_body [((0 : Nat), (5 : Nat)), (1, 5)]
          (fun p => p.1 == 1) (fun _ => true) (fun a b => a.2 == b.2) true =
        some ((1, 5), l1 ++ l2) :=
  wait_event_remove_amended [((0 : Nat), (5 : Nat)), (1, 5)]
    (fun p => p.1 == 1) (fun _ => true) (fun a b => a.2 == b.2) (1, 5)
    (by decide) (by decide) (by decide)

/-- C2: the two Mesh polling waits whose loops omit `raise_on_global_end()`
never abort on cancellation: with the global-end flag raised at every poll
and the condition never satisfied, `wait_for_model_added_op` and
`wait_for_blob_target_lost` still poll to the end of the timeout window and
return the timeout sentinel `False` as a normal value — for every window
size — instead of aborting within one poll interval as the claim requires
of every polling wait. -/
theorem mesh_waits_ignore_cancellation :
    ∀ fuel i : Nat,
      wait_for_model_added_op [1, 2, 3, 4] (fun _ => none) (fun _ => true) fuel i =
        Except.ok false ∧
      wait_for_blob_target_lost (fun _ => false) (fun _ => true) fuel i =
        Except.ok false := by
  intro fuel
  induction fuel with
  | zero => intro i; exact ⟨rfl, rfl⟩
  | succ fuel ih =>
      intro i
      exact ⟨by rw [wait_for_model_added_op]; simpa [modelOpMatch] using (ih (i + 1)).1,
             by rw [wait_for_blob_target_lost]; simpa using (ih (i + 1)).2⟩

/-- C4: when the entry barrier of the matched element is aborted while the
caller blocks in it (or was already aborted beforehand),
`threading.Barrier.wait()` raises `BrokenBarrierError`
(`entryWait = Except.error ()`), and `Synch.wait_for_start` propagates the
exception to its caller instead of returning the `None` sentinel. -/
theorem wait_for_start_raises_on_abort :
    Synch.wait_for_start true (Except.error ()) true true = Except.error () ∧
    Synch.wait_for_start true (Except.error ()) true true ≠ Except.ok none := by
  exact ⟨rfl, fun h => Except.noConfusion h⟩

lemma list_remove_elem_not_mem (table : List Nat) (x : Nat) (h : x ∉ table) :
    list_remove_elem table x = table := by
  induction table with
  | nil => rfl
  | cons y ys ih =>
      have hxy : y ≠ x := fun e => h (e ▸ List.mem_cons_self y ys)
      rw [list_remove_elem, if_neg hxy, ih (fun hm => h (List.mem_cons_of_mem y hm))]

/-- C6: when the exit barrier releases normally, `Synch.wait_for_end`
performs, in order: the active point's optional delay sleep (when the delay
is set to a nonzero value — Python truthiness of the `delay` field), the
setting of the active point's completion signal, the exit-barrier wait,
and the removal of the element from the registry; the removal deletes this
element's first occurrence and is idempotent — an element already removed
by another participant leaves the registry unchanged with no error — and
the call returns the `None` value. -/
theorem wait_for_end_effects (delay : Option Nat) (table : List Nat) (elemId : Nat) :
    Synch.wait_for_end delay (Except.ok ()) false table elemId =
      Except.ok (((match delay with
          | some d => if d != 0 then [EndAction.sleepDelay d] else []
          | none => []) ++
          [EndAction.setDone, EndAction.endBarrierWait, EndAction.removeElem]),
        list_remove_elem table elemId, none)
    ∧ (elemId ∉ table → list_remove_elem table elemId = table) := by
  exact ⟨rfl, list_remove_elem_not_mem table elemId⟩

/-- Witness for `wait_for_end_effects`: a registry holding one other
element; this element's id is absent (already removed by the peer), the
removal is a no-op and the neighbour's delay of 3 is slept first. -/
theorem wait_for_end_effects_witness :
    (9 : Nat) ∉ [7] ∧
    list_remove_elem [7] 9 = [7] ∧
    Synch.wait_for_end (some 3) (Except.ok ()) false [7] 9 =
      Except.ok ([EndAction.sleepDelay 3, EndAction.setDone,
        EndAction.endBarrierWait, EndAction.removeElem], [7], none) :=
  ⟨by decide, (wait_for_end_effects (some 3) [7] 9).2 (by decide),
    (wait_for_end_effects (some 3) [7] 9).1⟩

/-- C7: `Synch.cancel_synch` leaves the registry empty, and every formerly
registered element ends with both its barriers aborted (broken) and every
one of its points' completion signals force-set. -/
theorem cancel_synch_aborts_all (table : List SynchElem) :
    (Synch.cancel_synch table).2 = [] ∧
    (Synch.cancel_synch table).1 = table.map SynchElem.cancel_synch ∧
    ∀ e ∈ table,
      (SynchElem.cancel_synch e).start_broken = true ∧
      (SynchElem.cancel_synch e).end_broken = true ∧
      ∀ p ∈ (SynchElem.cancel_synch e).sync_points, p.done.isSet = true := by
  refine ⟨rfl, rfl, fun e _ => ⟨rfl, rfl, fun p hp => ?_⟩⟩
  simp only [SynchElem.cancel_synch, List.mem_map] at hp
  obtain ⟨q, _, rfl⟩ := hp
  rfl

/-- Witness for `cancel_synch_aborts_all` on a registry with one element of
two points, one signal already set and one unset. -/
theorem cancel_synch_aborts_all_witness :
    (⟨[⟨1, 2, none, ⟨false⟩⟩, ⟨1, 3, some 4, ⟨true⟩⟩], false, false⟩ : SynchElem) ∈
      [(⟨[⟨1, 2, none, ⟨false⟩⟩, ⟨1, 3, some 4, ⟨true⟩⟩], false, false⟩ : SynchElem)] ∧
    ((SynchElem.cancel_synch
        ⟨[⟨1, 2, none, ⟨false⟩⟩, ⟨1, 3, some 4, ⟨true⟩⟩], false, false⟩).start_broken = true ∧
      (SynchElem.cancel_synch
        ⟨[⟨1, 2, none, ⟨false⟩⟩, ⟨1, 3, some 4, ⟨true⟩⟩], false, false⟩).end_broken = true ∧
      ∀ p ∈ (SynchElem.cancel_synch
        ⟨[⟨1, 2, none, ⟨false⟩⟩, ⟨1, 3, some 4, ⟨true⟩⟩], false, false⟩).sync_points,
        p.done.isSet = true) :=
  ⟨List.mem_singleton.mpr rfl,
    (cancel_synch_aborts_all
        [⟨[⟨1, 2, none, ⟨false⟩⟩, ⟨1, 3, some 4, ⟨true⟩⟩], false, false⟩]).2.2
      ⟨[⟨1, 2, none, ⟨false⟩⟩, ⟨1, 3, some 4, ⟨true⟩⟩], false, false⟩
      (List.mem_singleton.mpr rfl)⟩

/-- C8: registering a list of sync points appends to the registry a new
element — with freshly constructed, unbroken barriers — whose points are
the given points with each completion signal replaced by a freshly
initialized, unset signal; all other fields of every point are preserved,
so set or broken signals of a prior (possibly aborted) run of the same
reused `SynchPoint` objects cannot leak into the new run. -/
theorem add_synch_element_fresh (table : List SynchElem) (elem : List SynchPoint) :
    Synch.add_synch_element table elem =
      table ++ [⟨elem.map fun p => { p with done := Signal.fresh }, false, false⟩] ∧
    Signal.fresh.isSet = false ∧
    ∀ i : Nat, (elem.map fun p => { p with done := Signal.fresh })[i]? =
      elem[i]?.map fun p => ⟨p.test_case, p.wid, p.delay, Signal.fresh⟩ := by
  exact ⟨rfl, rfl, fun i => by rw [List.getElem?_map]⟩

/-- C9 counterexample: `is_procedure_done` with the non-positive
expected-count sentinel and an EMPTY record list reports the procedure as
done — the claim asserts the check is not satisfied there. -/
theorem unbounded_count_counterexample :
    is_procedure_done ([] : List Nat) (some 0) = true := by decide

/-- C9 amended: the nonzero-only reading of the unbounded-count sentinel
holds for `GattCl.is_notification_rxed` — with a non-positive expected
count the check is satisfied exactly when at least one record has been
received — while `is_procedure_done` treats any non-positive count as
immediately satisfied regardless of the record list (and a missing `None`
count as never satisfied). -/
theorem unbounded_count_amended (l : List α) (e c : Int) (he : e ≤ 0) (hc : c ≤ 0) :
    (is_notification_rxed l e = true ↔ l ≠ []) ∧
    is_procedure_done l (some c) = true ∧
    is_procedure_done l none = false := by
  refine ⟨?_, ?_, rfl⟩
  · rw [is_notification_rxed, if_neg (by omega)]
    simp [List.length_pos]
  · rw [is_procedure_done]
    simp [hc]

/-- Witness for `unbounded_count_amended` with one received record,
expected count 0 and count -1. -/
theorem unbounded_count_amended_witness :
    ((0 : Int) ≤ 0 ∧ (-1 : Int) ≤ 0) ∧
    ((is_notification_rxed [(5 : Nat)] 0 = true ↔ ([(5 : Nat)] : List Nat) ≠ []) ∧
      is_procedure_done [(5 : Nat)] (some (-1)) = true ∧
      is_procedure_done ([(5 : Nat)] : List Nat) none = false) :=
  ⟨⟨by decide, by decide⟩,
    unbounded_count_amended [(5 : Nat)] 0 (-1) (by decide) (by decide)⟩

/-- C10: `CORE.cleanup` maps the state tree reset over the event queues:
the queue of every category other than the carry-over device-ready category
(`defs.CORE_EV_IUT_READY`) is cleared, while the device-ready category's
queued records survive the reset unchanged, entry by entry. -/
theorem core_cleanup_carry_over (key : Nat) (queues : List (Nat × List α)) (i : Nat) :
    (CORE.cleanup key queues)[i]? =
      queues[i]?.map fun kq => if kq.1 = key then kq else (kq.1, ([] : List α)) := by
  rw [CORE.cleanup, List.getElem?_map]

end AutoPts
